import Mathlib

/-!
Shallow embedding of the email verification engine of `app.py`:
normalisation, the `EMAIL_REGEX` syntax check, the in-memory cache with
`CACHE_TTL`, MX resolution over a DNS oracle, the SMTP RCPT probe over an
SMTP oracle, outcome classification, and the thread-pool batch runner.

Strings are modelled as `List Char`, timestamps as `Int`, and the two
network collaborators (DNS and SMTP) as an explicit environment `Env`.
A Python exception raised by a collaborator is modelled as an explicit
failure value of the oracle (`none` for the DNS resolver, the
`SmtpOutcome.raised` and quit-failure cases for the SMTP probe); the
`try/except` blocks of `verify_email` then correspond to the visible
`match` branches below.
-/

/-- ASCII whitespace: the characters stripped by Python's `str.strip` and
excluded by the regex character class `\s` (restricted to ASCII input). -/
def isSpace (c : Char) : Bool :=
  c = ' ' || c = '\t' || c = '\n' || c = '\r' || c = '\x0b' || c = '\x0c'

/-- Python `s.strip()`: drop whitespace from both ends. -/
def pyStrip (s : List Char) : List Char :=
  ((s.dropWhile isSpace).reverse.dropWhile isSpace).reverse

/-- Python `s.lower()` (ASCII case folding). -/
def pyLower (s : List Char) : List Char :=
  s.map Char.toLower

/-- The normalisation `email.strip().lower()` performed at the top of
`verify_email` (app.py line 23). -/
def pyNormalize (s : List Char) : List Char :=
  pyLower (pyStrip s)

/-- Python `s.split(sep)` for a one-character separator, as used by
`email.split('@')` (app.py line 36). -/
def splitOnChar (c : Char) : List Char → List (List Char)
  | [] => [[]]
  | x :: xs =>
    match splitOnChar c xs with
    | [] => [[]]
    | h :: t => if x = c then [] :: h :: t else (x :: h) :: t

/-- `email.split('@')[1]`: the domain part of an address.  This line of
`app.py` is only reached on addresses accepted by `EMAIL_REGEX`, which
contain exactly one `@`, so index 1 exists there. -/
def domainOf (email : List Char) : List Char :=
  (splitOnChar '@' email).getD 1 []

/-- A character admitted by the regex class `[^@\s]` of `EMAIL_REGEX`. -/
def okChar (c : Char) : Bool :=
  decide (c ≠ '@') && ! isSpace c

/-- Split a list at the first occurrence of `c`: returns the part before
and the part after, or `none` when `c` does not occur. -/
def splitAtChar (c : Char) : List Char → Option (List Char × List Char)
  | [] => none
  | x :: xs =>
    if x = c then some ([], xs)
    else (splitAtChar c xs).map (fun p => (x :: p.1, p.2))

/-- Matching of `EMAIL_REGEX = ^[^@\s]+@[^@\s]+\.[^@\s]+$` (app.py
line 20).  Because the class `[^@\s]` excludes `@`, a matching string
splits at its unique `@` into a nonempty local part of `[^@\s]`
characters and a domain part of `[^@\s]` characters containing a `.`
that is neither its first nor its last character (the regex needs a
nonempty `[^@\s]+` run on each side of the literal dot and `.` itself
belongs to the class).  `verify_email` only applies the regex to
stripped strings, which never end in a newline, so the Python `$`
anchor coincides with true end of string here. -/
def EMAIL_REGEX_match (s : List Char) : Bool :=
  match splitAtChar '@' s with
  | none => false
  | some (l, d) =>
    decide (l ≠ []) && l.all okChar && d.all okChar &&
      ((d.drop 1).dropLast).contains '.'

/-- The closed set of outcome statuses stored in the cache and returned
by `verify_email`; each constructor corresponds to one distinct status
string of `app.py` (`Valid`, `Mailbox Not Found`, `Invalid Syntax`,
`No MX Records`, `Unknown (code)`, `SMTP Error: detail`). -/
inductive Status where
  | valid
  | mailboxNotFound
  | invalidSyntax
  | noMxRecords
  | unknownCode (code : Nat)
  | smtpError (detail : List Char)
deriving DecidableEq

/-- The dictionary returned by `verify_email`: the normalised address
paired with its status. -/
structure VResult where
  email : List Char
  status : Status
deriving DecidableEq

/-- Observable outcome of one SMTP probe (connect, helo, mail, rcpt,
quit): either some step before the RCPT reply raised an exception
(carrying `str(exc)`), or the RCPT reply code was read, in which case
`server.quit()` may still raise (`quitExc = some detail`). -/
inductive SmtpOutcome where
  | raised (detail : List Char)
  | rcpt (code : Nat) (quitExc : Option (List Char))
deriving DecidableEq

/-- The two network collaborators.  `dns domain` is `none` when
`dns.resolver.resolve(domain, MX)` raises, otherwise the list of
`(preference, exchange)` records; `smtp mx email` is the outcome of the
probe of `email` against host `mx`. -/
structure Env where
  dns : List Char → Option (List (Nat × List Char))
  smtp : List Char → List Char → SmtpOutcome

/-- The module-level dictionary `cache = {}` of app.py, as a map from
normalised address to `(status, timestamp)`. -/
def Cache : Type := List Char → Option (Status × Int)

/-- Python dictionary assignment `cache[email] = entry`. -/
def Cache.set (c : Cache) (k : List Char) (v : Status × Int) : Cache :=
  fun k' => if k' = k then some v else c k'

/-- `CACHE_TTL = 60 * 60` (app.py line 18). -/
def CACHE_TTL : Int := 60 * 60

/-- The cache test of app.py line 28: an entry exists for `k` and
`now - entry.timestamp < CACHE_TTL`. -/
def cacheFresh (c : Cache) (now : Int) (k : List Char) : Bool :=
  match c k with
  | some (_, ts) => now - ts < CACHE_TTL
  | none => false

/-- Python tuple comparison on `(preference, hostname)` pairs as used by
`sorted` on MX records: by preference first, ties by hostname
(lexicographic by code point). -/
def strLe : List Char → List Char → Bool
  | [], _ => true
  | _ :: _, [] => false
  | a :: as, b :: bs => a < b || (a = b && strLe as bs)

/-- The order used by `sorted([(r.preference, r.exchange.to_text()) ...])`. -/
def recordLe (a b : Nat × List Char) : Bool :=
  a.1 < b.1 || (a.1 = b.1 && strLe a.2 b.2)

/-- Lines 31–67 of app.py: the body of `verify_email` after the cache
check fell through, applied to the already-normalised address.  Each
branch writes the cache entry for `email` and returns the dictionary,
exactly as the source does:
syntax check (lines 32–34), MX lookup inside `try` with the empty-answer
`IndexError` also caught (lines 39–45), SMTP probe inside `try`
(lines 48–67) — where a quit exception after the RCPT code was read
jumps to the handler before the classification runs. -/
def verify_email_slow (env : Env) (cache : Cache) (now : Int)
    (email : List Char) : VResult × Cache :=
  if ! EMAIL_REGEX_match email then
    ({email := email, status := .invalidSyntax},
     cache.set email (.invalidSyntax, now))
  else
    match env.dns (domainOf email) with
    | none =>
      ({email := email, status := .noMxRecords},
       cache.set email (.noMxRecords, now))
    | some answers =>
      match answers.mergeSort recordLe with
      | [] =>
        ({email := email, status := .noMxRecords},
         cache.set email (.noMxRecords, now))
      | (_, mx_record) :: _ =>
        match env.smtp mx_record email with
        | .raised detail =>
          ({email := email, status := .smtpError detail},
           cache.set email (.smtpError detail, now))
        | .rcpt _ (some detail) =>
          ({email := email, status := .smtpError detail},
           cache.set email (.smtpError detail, now))
        | .rcpt code none =>
          let st : Status :=
            if code = 250 || code = 251 then .valid
            else if code = 550 then .mailboxNotFound
            else .unknownCode code
          ({email := email, status := st}, cache.set email (st, now))

/-- `verify_email(email)` of app.py lines 22–67: normalise, consult the
cache (returning a fresh entry's status unchanged), otherwise run the
slow path. -/
def verify_email (env : Env) (cache : Cache) (now : Int)
    (email0 : List Char) : VResult × Cache :=
  let email := pyNormalize email0
  match cache email with
  | some (st, ts) =>
    if now - ts < CACHE_TTL then ({email := email, status := st}, cache)
    else verify_email_slow env cache now email
  | none => verify_email_slow env cache now email

/-- One linearised execution of the thread pool of `verify_bulk`
(app.py lines 81–82): the tasks, tagged with their submission index, run
in an arbitrary completion order `sched`, each against the shared cache
as left by the previously completed tasks and with its own clock
reading; the pool records each task's result with its index. -/
def runSched (env : Env) (times : Nat → Int) :
    Cache → List (Nat × List Char) → Cache × List (Nat × VResult)
  | cache, [] => (cache, [])
  | cache, (i, e) :: rest =>
    let p := verify_email env cache (times i) e
    let q := runSched env times p.2 rest
    (q.1, (i, p.1) :: q.2)

/-- `list(ex.map(verify_email, emails))`: the pool's results gathered
back in submission order — the i-th output is the recorded result of
task i, whatever position it completed at in `sched`. -/
def verify_bulk (env : Env) (times : Nat → Int) (cache : Cache)
    (emails : List (List Char)) (sched : List (Nat × List Char)) :
    List VResult :=
  (List.range emails.length).filterMap
    (fun i => (runSched env times cache sched).2.lookup i)

/-- The classification implicit in the RCPT branch of app.py
(lines 56–61), named for stating theorems about it. -/
def smtpClassify (code : Nat) : Status :=
  if code = 250 || code = 251 then .valid
  else if code = 550 then .mailboxNotFound
  else .unknownCode code

/-- The status computed by the slow path of `verify_email` as a pure
function of the environment and the normalised address; derived from
`verify_email_slow` for stating theorems (the slow path never reads the
cache, so its status depends only on `env` and the address). -/
def classify (env : Env) (email : List Char) : Status :=
  if ! EMAIL_REGEX_match email then .invalidSyntax
  else
    match env.dns (domainOf email) with
    | none => .noMxRecords
    | some answers =>
      match answers.mergeSort recordLe with
      | [] => .noMxRecords
      | (_, mx_record) :: _ =>
        match env.smtp mx_record email with
        | .raised detail => .smtpError detail
        | .rcpt _ (some detail) => .smtpError detail
        | .rcpt code none => smtpClassify code

/-- The SMTP-stage classification of app.py lines 53–67 as a function of
the probe outcome, named for stating theorems: an exception anywhere in
the session — including one raised by `server.quit()` after the RCPT
code was read — yields SmtpError, otherwise the code is classified. -/
def probeStatus : SmtpOutcome → Status
  | .raised detail => .smtpError detail
  | .rcpt _ (some detail) => .smtpError detail
  | .rcpt code none => smtpClassify code

/-- The language of `EMAIL_REGEX`, written as the regex reads: a
nonempty `[^@\s]+` local part, the literal `@`, and a domain consisting
of a nonempty `[^@\s]+` run, a literal dot, and another nonempty
`[^@\s]+` run. -/
def regexLang (s : List Char) : Prop :=
  ∃ l a b, s = l ++ '@' :: (a ++ '.' :: b) ∧ l ≠ [] ∧ a ≠ [] ∧ b ≠ [] ∧
    l.all okChar = true ∧ a.all okChar = true ∧ b.all okChar = true

/-- The address shape as the spec's Syntax Validator contract words it:
`local-part@domain-part` where neither part contains `@` or whitespace
and the domain part contains at least one `.` (a spec-side definition,
for comparison against `EMAIL_REGEX_match`). -/
def claimShape (s : List Char) : Bool :=
  match splitAtChar '@' s with
  | none => false
  | some (l, d) =>
    decide (l ≠ []) && l.all okChar && decide (d ≠ []) && d.all okChar &&
      d.contains '.'

/-! ### Concrete material for witnesses and counterexamples -/

/-- The empty starting cache. -/
def cache0 : Cache := fun _ => none

/-- A domain with MX records in the concrete environments below. -/
def dB : List Char := ['b', '.', 'c', 'o', 'm']

/-- The MX hostname the concrete environments resolve `dB` to. -/
def mxB : List Char := ['m', 'x', '.', 'b']

/-- An address whose probe answers RCPT 250 and quits cleanly. -/
def eOk : List Char := ['o', 'k', '@', 'b', '.', 'c', 'o', 'm']

/-- An address whose probe answers RCPT 451 and quits cleanly. -/
def e451 : List Char := ['u', '@', 'b', '.', 'c', 'o', 'm']

/-- An address whose probe answers RCPT 250 but whose QUIT raises. -/
def eQuit : List Char := ['q', '@', 'b', '.', 'c', 'o', 'm']

/-- The exception text of the failing QUIT. -/
def quitMsg : List Char := ['l', 'o', 's', 't']

/-- A syntactically invalid address (no at sign). -/
def eBad : List Char := ['b', 'a', 'd']

/-- A syntactically invalid address used with a stale cache entry. -/
def eS : List Char := ['s', 't', 'a', 'l', 'e']

/-- An address whose domain has a dot only in last position: it fits
the spec's stated shape (a dot, no whitespace, single at sign) but is
rejected by `EMAIL_REGEX`. -/
def eDot : List Char := ['a', '@', 'b', '.']

/-- A cache holding one entry, written at time 0, for `eS`. -/
def cacheStale : Cache :=
  fun k => if k = eS then some (Status.valid, 0) else none

/-- Concrete environment: `dB` resolves to one MX record; `eOk` probes
to RCPT 250, `e451` to RCPT 451, anything else fails to connect. -/
def envW : Env where
  dns d := if d = dB then some [(10, mxB)] else none
  smtp _ e :=
    if e = eOk then .rcpt 250 none
    else if e = e451 then .rcpt 451 none
    else .raised ['x']

/-- Concrete environment in which the probe of `eQuit` reads RCPT 250
but the subsequent QUIT raises. -/
def envQuit : Env where
  dns d := if d = dB then some [(10, mxB)] else none
  smtp _ e := if e = eQuit then .rcpt 250 (some quitMsg) else .raised ['x']

/-- The same probe as `envQuit` but with a clean QUIT. -/
def envQuitOk : Env where
  dns d := if d = dB then some [(10, mxB)] else none
  smtp _ _ := .rcpt 250 none

/-- An environment returning two MX records with distinct preferences. -/
def envM : Env where
  dns d := if d = dB then some [(20, ['n', '2']), (10, mxB)] else none
  smtp _ _ := .rcpt 250 none

/-- `envW` with the probe of `eOk` alone changed to a connection
failure. -/
def envW2 : Env where
  dns := envW.dns
  smtp mx e := if e = eOk then .raised ['c'] else envW.smtp mx e

/-- A clock assigning time 0 to every batch task. -/
def timesW : Nat → Int := fun _ => 0

/-- A two-address batch input. -/
def emailsW : List (List Char) := [eOk, eBad]

/-- A completion order for `emailsW` in which the second task finishes
first. -/
def schedW : List (Nat × List Char) := [(1, eBad), (0, eOk)]

/-! ### Characterisation lemmas -/

theorem verify_email_slow_eq (env : Env) (cache : Cache) (now : Int)
    (email : List Char) :
    verify_email_slow env cache now email =
      ({email := email, status := classify env email},
       Cache.set cache email (classify env email, now)) := by
  unfold verify_email_slow classify smtpClassify
  split
  · rfl
  · split
    · rfl
    · split
      · rfl
      · split <;> rfl

/-- Master characterisation of one `verify_email` call: either the cache
has a fresh entry for the normalised address, which is returned with the
cache untouched, or the call computes `classify` of the environment and
writes it into the cache under the normalised address at time `now`. -/
theorem verify_email_spec (env : Env) (cache : Cache) (now : Int)
    (s : List Char) :
    (∃ st ts, cache (pyNormalize s) = some (st, ts) ∧
        now - ts < CACHE_TTL ∧
        verify_email env cache now s =
          ({email := pyNormalize s, status := st}, cache)) ∨
    (cacheFresh cache now (pyNormalize s) = false ∧
        verify_email env cache now s =
          ({email := pyNormalize s, status := classify env (pyNormalize s)},
           Cache.set cache (pyNormalize s)
             (classify env (pyNormalize s), now))) := by
  cases h : cache (pyNormalize s) with
  | none =>
    right
    refine ⟨by simp [cacheFresh, h], ?_⟩
    simp [verify_email, h, verify_email_slow_eq]
  | some p =>
    obtain ⟨st, ts⟩ := p
    by_cases hf : now - ts < CACHE_TTL
    · exact Or.inl ⟨st, ts, rfl, hf, by simp [verify_email, h, hf]⟩
    · right
      refine ⟨by simp [cacheFresh, h, hf], ?_⟩
      simp [verify_email, h, hf, verify_email_slow_eq]

theorem verify_email_email_eq (env : Env) (cache : Cache) (now : Int)
    (s : List Char) :
    (verify_email env cache now s).1.email = pyNormalize s := by
  rcases verify_email_spec env cache now s with ⟨st, ts, _, _, he⟩ | ⟨_, he⟩ <;>
    rw [he]

/-- A call writes no cache key other than its own normalised address. -/
theorem verify_email_frame (env : Env) (cache : Cache) (now : Int)
    (s : List Char) (k : List Char) (hk : k ≠ pyNormalize s) :
    (verify_email env cache now s).2 k = cache k := by
  rcases verify_email_spec env cache now s with ⟨st, ts, _, _, he⟩ | ⟨_, he⟩ <;>
    rw [he]
  simp [Cache.set, hk]

/-- After any call, the cache holds an entry for the normalised address
whose status is the status just returned. -/
theorem verify_email_cache_result (env : Env) (cache : Cache) (now : Int)
    (s : List Char) :
    ∃ ts, (verify_email env cache now s).2 (pyNormalize s) =
      some ((verify_email env cache now s).1.status, ts) := by
  rcases verify_email_spec env cache now s with ⟨st, ts, hc, _, he⟩ | ⟨_, he⟩
  · exact ⟨ts, by rw [he]; exact hc⟩
  · exact ⟨now, by rw [he]; simp [Cache.set]⟩

/-- Evaluation helper: a call on an address absent from the cache runs
the slow path. -/
theorem verify_email_of_none (env : Env) (cache : Cache) (now : Int)
    (s : List Char) (hc : cache (pyNormalize s) = none) :
    verify_email env cache now s =
      ({email := pyNormalize s, status := classify env (pyNormalize s)},
       Cache.set cache (pyNormalize s)
         (classify env (pyNormalize s), now)) := by
  simp [verify_email, hc, verify_email_slow_eq]

/-- Evaluation helper: on a syntactically accepted address whose domain
resolves, the final status is the classification of the probe against
the head of the sorted record list. -/
theorem classify_probe (env : Env) (k : List Char)
    (answers : List (Nat × List Char)) (p : Nat) (mx : List Char)
    (tl : List (Nat × List Char))
    (hm : EMAIL_REGEX_match k = true)
    (hd : env.dns (domainOf k) = some answers)
    (hs : answers.mergeSort recordLe = (p, mx) :: tl) :
    classify env k = probeStatus (env.smtp mx k) := by
  unfold classify
  rw [hm]
  simp only [Bool.not_true, Bool.false_eq_true, if_false, hd, hs]
  cases env.smtp mx k with
  | raised detail => rfl
  | rcpt code q => cases q <;> rfl

/-- C3: every call that is not a fresh cache hit writes the status it is
about to return into the cache under the normalised address, paired with
the call's clock reading `now`, and touches nothing else. -/
theorem nonhit_writes_cache (env : Env) (cache : Cache) (now : Int)
    (s : List Char)
    (h : cacheFresh cache now (pyNormalize s) = false) :
    (verify_email env cache now s).2 (pyNormalize s) =
      some ((verify_email env cache now s).1.status, now) ∧
    (verify_email env cache now s).2 =
      Cache.set cache (pyNormalize s)
        ((verify_email env cache now s).1.status, now) := by
  rcases verify_email_spec env cache now s with ⟨st, ts, hc, hlt, he⟩ | ⟨_, he⟩
  · rw [cacheFresh, hc] at h
    simp [hlt] at h
  · rw [he]
    exact ⟨by simp [Cache.set], rfl⟩

/-- C3 witness: the concrete cache-miss call on `eBad` at time 7 writes
its returned status under the normalised key with timestamp 7. -/
theorem nonhit_writes_cache_witness :
    (verify_email envW cache0 7 eBad).2 (pyNormalize eBad) =
      some ((verify_email envW cache0 7 eBad).1.status, 7) ∧
    (verify_email envW cache0 7 eBad).2 =
      Cache.set cache0 (pyNormalize eBad)
        ((verify_email envW cache0 7 eBad).1.status, 7) :=
  nonhit_writes_cache envW cache0 7 eBad (by decide)

/-- C10: a call returns a result carrying the normalised input as its
address, modifies no cache key other than that normalised input, and a
fresh cache hit leaves the whole cache unchanged. -/
theorem call_frame (env : Env) (cache : Cache) (now : Int)
    (s : List Char) :
    (verify_email env cache now s).1.email = pyNormalize s ∧
    (∀ k, k ≠ pyNormalize s → (verify_email env cache now s).2 k = cache k) ∧
    (cacheFresh cache now (pyNormalize s) = true →
      (verify_email env cache now s).2 = cache) := by
  refine ⟨verify_email_email_eq env cache now s,
    fun k hk => verify_email_frame env cache now s k hk, fun hfr => ?_⟩
  rcases verify_email_spec env cache now s with ⟨st, ts, hc, hlt, he⟩ | ⟨hf, he⟩
  · rw [he]
  · rw [hf] at hfr
    exact absurd hfr (by simp)

/-- C10 witness: the concrete call on `eBad` leaves the unrelated key
`dB` untouched. -/
theorem call_frame_witness :
    (verify_email envW cache0 0 eBad).2 dB = cache0 dB :=
  (call_frame envW cache0 0 eBad).2.1 dB (by decide)

/-- C5: if after a first call the cache holds the entry `(st, ts)` for
the normalised address and a second call on the same raw string happens
at a time `t2` with `t2 - ts < CACHE_TTL`, then the second call — under
an arbitrary environment `env2`, so without any DNS or SMTP use —
returns exactly the status `st`, which is the status the first call
returned, and leaves the cache unchanged. -/
theorem second_call_idempotent (env env2 : Env) (cache : Cache)
    (t1 t2 : Int) (s : List Char) (st : Status) (ts : Int)
    (h1 : (verify_email env cache t1 s).2 (pyNormalize s) = some (st, ts))
    (h2 : t2 - ts < CACHE_TTL) :
    verify_email env2 (verify_email env cache t1 s).2 t2 s =
      ({email := pyNormalize s, status := st},
       (verify_email env cache t1 s).2) ∧
    st = (verify_email env cache t1 s).1.status := by
  constructor
  · rcases verify_email_spec env2 (verify_email env cache t1 s).2 t2 s with
      ⟨st', ts', hc, _, he⟩ | ⟨hf, _⟩
    · rw [h1] at hc
      have h3 := Option.some.inj hc
      rw [Prod.mk.injEq] at h3
      obtain ⟨h4, h5⟩ := h3
      subst h4
      subst h5
      exact he
    · rw [cacheFresh, h1] at hf
      simp [h2] at hf
  · obtain ⟨ts', hw⟩ := verify_email_cache_result env cache t1 s
    rw [h1] at hw
    have h3 := Option.some.inj hw
    rw [Prod.mk.injEq] at h3
    exact h3.1

/-- C5 witness: a first call on `eBad` at time 0 writes an entry at
time 0; at time 100 a second call under the entirely different
environment `envQuit` returns the identical status with the cache
unchanged. -/
theorem second_call_idempotent_witness :
    (verify_email envQuit (verify_email envW cache0 0 eBad).2 100 eBad =
      ({email := pyNormalize eBad, status := Status.invalidSyntax},
       (verify_email envW cache0 0 eBad).2) ∧
    Status.invalidSyntax = (verify_email envW cache0 0 eBad).1.status) :=
  second_call_idempotent envW envQuit cache0 0 100 eBad
    Status.invalidSyntax 0 (by decide) (by decide)

/-- C6: the cache test of `verify_email` fails exactly when no entry
exists for the normalised address or the entry is at least `CACHE_TTL`
seconds old; on such a stale entry the call ignores the cached status
and recomputes the full pipeline — the classification over the DNS and
SMTP oracles — overwriting the entry. -/
theorem stale_entry_reprobes (env : Env) (cache : Cache) (now : Int)
    (s : List Char) :
    (cacheFresh cache now (pyNormalize s) = false ↔
      cache (pyNormalize s) = none ∨
        ∃ st ts, cache (pyNormalize s) = some (st, ts) ∧
          CACHE_TTL ≤ now - ts) ∧
    (∀ st ts, cache (pyNormalize s) = some (st, ts) →
      CACHE_TTL ≤ now - ts →
      verify_email env cache now s =
        ({email := pyNormalize s, status := classify env (pyNormalize s)},
         Cache.set cache (pyNormalize s)
           (classify env (pyNormalize s), now))) := by
  constructor
  · rw [cacheFresh]
    cases hc : cache (pyNormalize s) with
    | none => simp
    | some p =>
      obtain ⟨st, ts⟩ := p
      constructor
      · intro h
        right
        refine ⟨st, ts, rfl, ?_⟩
        simpa using of_decide_eq_false h
      · rintro (h | ⟨st', ts', he, h⟩)
        · exact absurd h (by simp)
        · have h3 := Option.some.inj he
          rw [Prod.mk.injEq] at h3
          obtain ⟨rfl, rfl⟩ := h3
          simpa using not_lt.mpr h
  · intro st ts hentry hstale
    rcases verify_email_spec env cache now s with ⟨st', ts', hc, hlt, _⟩ | ⟨_, he⟩
    · rw [hentry] at hc
      have h3 := Option.some.inj hc
      rw [Prod.mk.injEq] at h3
      obtain ⟨rfl, rfl⟩ := h3
      exact absurd hlt (not_lt.mpr hstale)
    · exact he

/-- C6 witness: the entry for `eS` written at time 0 is stale at time
3600, and the call at time 3600 recomputes and overwrites it rather
than returning the cached Valid. -/
theorem stale_entry_reprobes_witness :
    verify_email envW cacheStale 3600 eS =
      ({email := pyNormalize eS, status := classify envW (pyNormalize eS)},
       Cache.set cacheStale (pyNormalize eS)
         (classify envW (pyNormalize eS), 3600)) :=
  (stale_entry_reprobes envW cacheStale 3600 eS).2 Status.valid 0
    (by decide) (by decide)

/-- Evaluation helper: the classification of the concrete quit-failure
probe of `eQuit` under `envQuit`. -/
theorem classify_envQuit_eval :
    classify envQuit eQuit = Status.smtpError quitMsg := by
  rw [classify_probe envQuit eQuit [(10, mxB)] 10 mxB [] (by decide)
    (by decide) (List.mergeSort_singleton (10, mxB))]
  decide

/-- Evaluation helper: the classification of the same probe when the
QUIT succeeds. -/
theorem classify_envQuitOk_eval :
    classify envQuitOk eQuit = Status.valid := by
  rw [classify_probe envQuitOk eQuit [(10, mxB)] 10 mxB [] (by decide)
    (by decide) (List.mergeSort_singleton (10, mxB))]
  decide

/-- C1 counterexample: the address `eQuit` reaches the SMTP probe (the
cache is empty, the syntax is accepted, the domain resolves to `mxB`)
and its RCPT reply code is 250 — yet the returned status is not Valid
but SmtpError, because the QUIT that follows raises.  The status of an
address reaching the probe is therefore not always determined by the
RCPT response code as the claim states. -/
theorem rcpt_claim_counterexample :
    cacheFresh cache0 0 (pyNormalize eQuit) = false ∧
    EMAIL_REGEX_match (pyNormalize eQuit) = true ∧
    envQuit.dns (domainOf (pyNormalize eQuit)) = some [(10, mxB)] ∧
    envQuit.smtp mxB (pyNormalize eQuit) = SmtpOutcome.rcpt 250 (some quitMsg) ∧
    (verify_email envQuit cache0 0 eQuit).1.status ≠ Status.valid := by
  refine ⟨by decide, by decide, by decide, by decide, ?_⟩
  rw [verify_email_of_none envQuit cache0 0 eQuit (by decide)]
  have hn : pyNormalize eQuit = eQuit := by decide
  rw [hn, classify_envQuit_eval]
  decide

/-- C1 (amended): for every address that reaches the SMTP probe and
whose session terminates without a QUIT exception, the status is
determined by the RCPT response code: 250 or 251 give Valid, 550 gives
MailboxNotFound, and any other code gives UnknownCode of that code. -/
theorem rcpt_code_determines_status (env : Env) (cache : Cache)
    (now : Int) (s : List Char) (answers : List (Nat × List Char))
    (p : Nat) (mx : List Char) (tl : List (Nat × List Char)) (code : Nat)
    (hfresh : cacheFresh cache now (pyNormalize s) = false)
    (hsyn : EMAIL_REGEX_match (pyNormalize s) = true)
    (hdns : env.dns (domainOf (pyNormalize s)) = some answers)
    (hsort : answers.mergeSort recordLe = (p, mx) :: tl)
    (hsmtp : env.smtp mx (pyNormalize s) = SmtpOutcome.rcpt code none) :
    (verify_email env cache now s).1.status =
      (if code = 250 ∨ code = 251 then Status.valid
       else if code = 550 then Status.mailboxNotFound
       else Status.unknownCode code) := by
  rcases verify_email_spec env cache now s with ⟨st, ts, hc, hlt, _⟩ | ⟨_, he⟩
  · rw [cacheFresh, hc] at hfresh
    simp [hlt] at hfresh
  · rw [he]
    show classify env (pyNormalize s) = _
    rw [classify_probe env (pyNormalize s) answers p mx tl hsyn hdns hsort,
      hsmtp]
    show smtpClassify code = _
    unfold smtpClassify
    by_cases h1 : code = 250 <;> by_cases h2 : code = 251 <;>
      by_cases h3 : code = 550 <;> simp [h1, h2, h3]

/-- C1 witness: the concrete probe of `e451` answers RCPT 451 with a
clean QUIT, and the call returns UnknownCode 451 as the mapping
dictates. -/
theorem rcpt_code_determines_status_witness :
    (verify_email envW cache0 0 e451).1.status =
      (if (451 : Nat) = 250 ∨ (451 : Nat) = 251 then Status.valid
       else if (451 : Nat) = 550 then Status.mailboxNotFound
       else Status.unknownCode 451) :=
  rcpt_code_determines_status envW cache0 0 e451 [(10, mxB)] 10 mxB [] 451
    (by decide) (by decide) (by decide)
    (List.mergeSort_singleton (10, mxB)) (by decide)

/-- C2: the code contradicts the spec's termination contract.  With an
empty cache, a resolvable domain and a probe whose RCPT reply is 250,
verify_email returns Valid when the QUIT succeeds, but SmtpError when
the QUIT raises: app.py line 54 calls server.quit() inside the try
block before the classification of lines 56–63, so a failure while
terminating the session masks the result already obtained. -/
theorem quit_failure_masks_code :
    (verify_email envQuit cache0 0 eQuit).1.status =
      Status.smtpError quitMsg ∧
    (verify_email envQuitOk cache0 0 eQuit).1.status = Status.valid := by
  have hn : pyNormalize eQuit = eQuit := by decide
  constructor
  · rw [verify_email_of_none envQuit cache0 0 eQuit (by decide)]
    rw [hn, classify_envQuit_eval]
  · rw [verify_email_of_none envQuitOk cache0 0 eQuit (by decide)]
    rw [hn, classify_envQuitOk_eval]

/-- Transitivity of the code-point order on strings. -/
theorem strLe_trans : ∀ a b c : List Char, strLe a b = true →
    strLe b c = true → strLe a c = true := by
  intro a
  induction a with
  | nil => intro b c _ _; rfl
  | cons x xs ih =>
    intro b c hab hbc
    cases b with
    | nil => simp [strLe] at hab
    | cons y ys =>
      cases c with
      | nil => simp [strLe] at hbc
      | cons z zs =>
        simp only [strLe, Bool.or_eq_true, Bool.and_eq_true,
          decide_eq_true_eq] at hab hbc ⊢
        rcases hab with h1 | ⟨rfl, h1⟩
        · rcases hbc with h2 | ⟨rfl, h2⟩
          · exact Or.inl (lt_trans h1 h2)
          · exact Or.inl h1
        · rcases hbc with h2 | ⟨rfl, h2⟩
          · exact Or.inl h2
          · exact Or.inr ⟨rfl, ih ys zs h1 h2⟩

/-- Totality of the code-point order on strings. -/
theorem strLe_total : ∀ a b : List Char, (strLe a b || strLe b a) = true := by
  intro a
  induction a with
  | nil => intro b; simp [strLe]
  | cons x xs ih =>
    intro b
    cases b with
    | nil => simp [strLe]
    | cons y ys =>
      simp only [strLe, Bool.or_eq_true, Bool.and_eq_true,
        decide_eq_true_eq]
      rcases lt_trichotomy x y with h | rfl | h
      · exact Or.inl (Or.inl h)
      · have h2 := ih ys
        rw [Bool.or_eq_true] at h2
        rcases h2 with h2 | h2
        · exact Or.inl (Or.inr ⟨rfl, h2⟩)
        · exact Or.inr (Or.inr ⟨rfl, h2⟩)
      · exact Or.inr (Or.inl h)

/-- Transitivity of the Python tuple order on MX records. -/
theorem recordLe_trans : ∀ a b c : Nat × List Char, recordLe a b = true →
    recordLe b c = true → recordLe a c = true := by
  intro a b c hab hbc
  simp only [recordLe, Bool.or_eq_true, Bool.and_eq_true,
    decide_eq_true_eq] at hab hbc ⊢
  rcases hab with h1 | ⟨e1, s1⟩
  · rcases hbc with h2 | ⟨e2, s2⟩
    · exact Or.inl (lt_trans h1 h2)
    · exact Or.inl (e2 ▸ h1)
  · rcases hbc with h2 | ⟨e2, s2⟩
    · exact Or.inl (e1 ▸ h2)
    · exact Or.inr ⟨e1.trans e2, strLe_trans _ _ _ s1 s2⟩

/-- Totality of the Python tuple order on MX records. -/
theorem recordLe_total : ∀ a b : Nat × List Char,
    (recordLe a b || recordLe b a) = true := by
  intro a b
  simp only [recordLe, Bool.or_eq_true, Bool.and_eq_true,
    decide_eq_true_eq]
  rcases lt_trichotomy a.1 b.1 with h | h | h
  · exact Or.inl (Or.inl h)
  · have h2 := strLe_total a.2 b.2
    rw [Bool.or_eq_true] at h2
    rcases h2 with h2 | h2
    · exact Or.inl (Or.inr ⟨h, h2⟩)
    · exact Or.inr (Or.inr ⟨h.symm, h2⟩)
  · exact Or.inr (Or.inl h)

/-- The head of the sorted MX record list is a record of minimal
preference among the answers. -/
theorem mergeSort_head_min (l : List (Nat × List Char)) (p : Nat)
    (mx : List Char) (tl : List (Nat × List Char))
    (h : l.mergeSort recordLe = (p, mx) :: tl) :
    (p, mx) ∈ l ∧ ∀ q hn, (q, hn) ∈ l → p ≤ q := by
  have hperm : (l.mergeSort recordLe).Perm l := List.mergeSort_perm l recordLe
  constructor
  · exact hperm.subset (by rw [h]; exact List.mem_cons_self _ _)
  · intro q hn hm
    have hm2 : (q, hn) ∈ (p, mx) :: tl := by
      rw [← h]
      exact hperm.symm.subset hm
    rcases List.mem_cons.mp hm2 with he | ht
    · rw [Prod.mk.injEq] at he
      exact le_of_eq he.1.symm
    · have hs := @List.sorted_mergeSort _ recordLe recordLe_trans
        recordLe_total l
      rw [h] at hs
      have hle := (List.pairwise_cons.mp hs).1 _ ht
      simp only [recordLe, Bool.or_eq_true, Bool.and_eq_true,
        decide_eq_true_eq] at hle
      rcases hle with h1 | ⟨h1, _⟩
      · exact Nat.le_of_lt h1
      · exact le_of_eq h1

/-- C7: MX resolution behaviour of verify_email.  When the DNS query
raises or returns an empty record set, the status is NoMailExchange
(No MX Records).  When it returns records, the probe is sent to the
hostname of a record of numerically smallest preference — the head of
the records sorted by Python's deterministic (preference, hostname)
tuple order, which fixes ties — and the final status is the SMTP-stage
classification of that probe. -/
theorem mx_resolution (env : Env) (cache : Cache) (now : Int)
    (s : List Char)
    (hfresh : cacheFresh cache now (pyNormalize s) = false)
    (hsyn : EMAIL_REGEX_match (pyNormalize s) = true) :
    ((env.dns (domainOf (pyNormalize s)) = none ∨
      env.dns (domainOf (pyNormalize s)) = some []) →
      (verify_email env cache now s).1.status = Status.noMxRecords) ∧
    (∀ answers, env.dns (domainOf (pyNormalize s)) = some answers →
      answers ≠ [] →
      ∃ p mx tl, answers.mergeSort recordLe = (p, mx) :: tl ∧
        (p, mx) ∈ answers ∧ (∀ q hn, (q, hn) ∈ answers → p ≤ q) ∧
        (verify_email env cache now s).1.status =
          probeStatus (env.smtp mx (pyNormalize s))) := by
  rcases verify_email_spec env cache now s with ⟨st, ts, hc, hlt, _⟩ | ⟨_, he⟩
  · rw [cacheFresh, hc] at hfresh
    simp [hlt] at hfresh
  constructor
  · intro hd
    rw [he]
    show classify env (pyNormalize s) = _
    unfold classify
    rw [hsyn]
    rcases hd with hd | hd <;>
      simp [hd, List.mergeSort_nil]
  · intro answers hdns hne
    obtain ⟨p, mx, tl, hsort⟩ :
        ∃ p mx tl, answers.mergeSort recordLe = (p, mx) :: tl := by
      cases hms : answers.mergeSort recordLe with
      | nil =>
        have : answers.Perm [] := by
          rw [← hms]
          exact (List.mergeSort_perm answers recordLe).symm
        exact absurd this.eq_nil hne
      | cons r tl =>
        obtain ⟨p, mx⟩ := r
        exact ⟨p, mx, tl, rfl⟩
    obtain ⟨hmem, hmin⟩ := mergeSort_head_min answers p mx tl hsort
    refine ⟨p, mx, tl, hsort, hmem, hmin, ?_⟩
    rw [he]
    exact classify_probe env (pyNormalize s) answers p mx tl hsyn hdns hsort

/-- C7 witness: with two records of preferences 20 and 10, resolution
picks a minimal-preference record and the status is the classification
of the probe against its hostname. -/
theorem mx_resolution_witness :
    ∃ p mx tl,
      [(20, ['n', '2']), (10, mxB)].mergeSort recordLe = (p, mx) :: tl ∧
      (p, mx) ∈ [(20, ['n', '2']), (10, mxB)] ∧
      (∀ q hn, (q, hn) ∈ [(20, ['n', '2']), (10, mxB)] → p ≤ q) ∧
      (verify_email envM cache0 0 eOk).1.status =
        probeStatus (envM.smtp mx (pyNormalize eOk)) :=
  (mx_resolution envM cache0 0 eOk (by decide) (by decide)).2
    [(20, ['n', '2']), (10, mxB)] (by decide) (by decide)

/-- A successful first-occurrence split certifies the decomposition. -/
theorem splitAtChar_some (c : Char) :
    ∀ s a b : List Char, splitAtChar c s = some (a, b) →
      s = a ++ c :: b ∧ c ∉ a := by
  intro s
  induction s with
  | nil => intro a b h; simp [splitAtChar] at h
  | cons x xs ih =>
    intro a b h
    rw [splitAtChar] at h
    by_cases hx : x = c
    · rw [if_pos hx] at h
      have h2 := Option.some.inj h
      rw [Prod.mk.injEq] at h2
      obtain ⟨h3, h4⟩ := h2
      subst h3
      subst h4
      subst hx
      exact ⟨rfl, by simp⟩
    · rw [if_neg hx] at h
      cases hs : splitAtChar c xs with
      | none => rw [hs] at h; simp at h
      | some p =>
        obtain ⟨a', b'⟩ := p
        rw [hs] at h
        simp only [Option.map_some', Option.some.injEq, Prod.mk.injEq] at h
        obtain ⟨h3, h4⟩ := h
        subst h3
        subst h4
        obtain ⟨h5, h6⟩ := ih a' b' hs
        refine ⟨by rw [h5]; rfl, fun hm => ?_⟩
        rcases List.mem_cons.mp hm with h7 | h7
        · exact hx h7.symm
        · exact h6 h7

/-- The converse: splitting a decomposition whose prefix avoids `c`
returns exactly that decomposition. -/
theorem splitAtChar_append (c : Char) :
    ∀ a b : List Char, c ∉ a → splitAtChar c (a ++ c :: b) = some (a, b) := by
  intro a
  induction a with
  | nil => intro b _; simp [splitAtChar]
  | cons x a' ih =>
    intro b hc
    have hx : ¬ x = c := fun h => hc (by rw [← h]; exact List.mem_cons_self _ _)
    rw [List.cons_append, splitAtChar, if_neg hx,
      ih b (fun hm => hc (List.mem_cons_of_mem _ hm))]
    rfl

/-- Membership in `dropLast` is having an occurrence that is not the
last element. -/
theorem mem_dropLast_iff (c : Char) :
    ∀ l : List Char, c ∈ l.dropLast ↔ ∃ a b, l = a ++ c :: b ∧ b ≠ []
  | [] => by
      simp only [List.dropLast_nil, List.not_mem_nil, false_iff]
      rintro ⟨a, b, hab, hb⟩
      exact absurd hab.symm (by simp)
  | [x] => by
      simp only [List.dropLast_single, List.not_mem_nil, false_iff]
      rintro ⟨a, b, hab, hb⟩
      cases a with
      | nil =>
        simp only [List.nil_append] at hab
        injection hab with _ h2
        exact hb h2.symm
      | cons x' a' =>
        rw [List.cons_append] at hab
        injection hab with _ h2
        exact absurd h2.symm (by simp)
  | x :: y :: t => by
      constructor
      · intro hm
        rcases List.mem_cons.mp hm with rfl | hm2
        · exact ⟨[], y :: t, rfl, by simp⟩
        · obtain ⟨a, b, hab, hb⟩ := (mem_dropLast_iff c (y :: t)).mp hm2
          exact ⟨x :: a, b, by rw [List.cons_append, hab], hb⟩
      · rintro ⟨a, b, hab, hb⟩
        cases a with
        | nil =>
          simp only [List.nil_append] at hab
          injection hab with h1 _
          rw [h1]
          exact List.mem_cons_self _ _
        | cons x' a' =>
          rw [List.cons_append] at hab
          injection hab with h1 h2
          exact List.mem_cons_of_mem _
            ((mem_dropLast_iff c (y :: t)).mpr ⟨a', b, h2, hb⟩)

/-- The interior-dot test of `EMAIL_REGEX_match` holds exactly when the
domain splits around a dot with nonempty runs on both sides. -/
theorem interior_dot_iff (d : List Char) :
    ((d.drop 1).dropLast).contains '.' = true ↔
      ∃ a b, d = a ++ '.' :: b ∧ a ≠ [] ∧ b ≠ [] := by
  cases d with
  | nil =>
    simp only [List.drop_nil, List.dropLast_nil]
    constructor
    · intro h; simp at h
    · rintro ⟨a, b, hab, _, _⟩
      exact absurd hab.symm (by simp)
  | cons x t =>
    have hdrop : (x :: t).drop 1 = t := by simp
    rw [hdrop]
    have hcm : (t.dropLast).contains '.' = true ↔ '.' ∈ t.dropLast := by simp
    rw [hcm, mem_dropLast_iff]
    constructor
    · rintro ⟨a, b, rfl, hb⟩
      exact ⟨x :: a, b, rfl, by simp, hb⟩
    · rintro ⟨a, b, hab, ha, hb⟩
      cases a with
      | nil => exact absurd rfl ha
      | cons x' a' =>
        rw [List.cons_append] at hab
        injection hab with _ h2
        exact ⟨a', b, h2, hb⟩

/-- `EMAIL_REGEX_match` recognises exactly the language of
`^[^@\s]+@[^@\s]+\.[^@\s]+$`. -/
theorem EMAIL_REGEX_match_iff (s : List Char) :
    EMAIL_REGEX_match s = true ↔ regexLang s := by
  constructor
  · intro h
    cases hsp : splitAtChar '@' s with
    | none => rw [EMAIL_REGEX_match, hsp] at h; simp at h
    | some p =>
      obtain ⟨l, d⟩ := p
      rw [EMAIL_REGEX_match, hsp] at h
      simp only [Bool.and_eq_true, decide_eq_true_eq] at h
      obtain ⟨⟨⟨hl, hlok⟩, hdok⟩, hdot⟩ := h
      obtain ⟨hs2, _⟩ := splitAtChar_some '@' s l d hsp
      obtain ⟨a, b, hd2, ha, hb⟩ := (interior_dot_iff d).mp hdot
      subst hd2
      rw [List.all_append, List.all_cons, Bool.and_eq_true,
        Bool.and_eq_true] at hdok
      exact ⟨l, a, b, hs2, hl, ha, hb, hlok, hdok.1, hdok.2.2⟩
  · rintro ⟨l, a, b, rfl, hl, ha, hb, hlok, haok, hbok⟩
    have hnl : '@' ∉ l := fun hm => by
      have h2 := List.all_eq_true.mp hlok _ hm
      simp [okChar] at h2
    rw [EMAIL_REGEX_match, splitAtChar_append '@' l _ hnl]
    simp only [Bool.and_eq_true, decide_eq_true_eq]
    refine ⟨⟨⟨hl, hlok⟩, ?_⟩, ?_⟩
    · rw [List.all_append, List.all_cons]
      simp only [hbok, haok, Bool.and_true, Bool.true_and]
      decide
    · exact (interior_dot_iff _).mpr ⟨a, b, rfl, ha, hb⟩

/-- C8 counterexample: the address `a@b.` fits the spec's stated shape
(one at sign, no whitespace, a dot in the domain part) but
`verify_email` classifies it InvalidSyntax: `EMAIL_REGEX` additionally
requires a nonempty run after the dot, so a domain whose only dot is
final is rejected. -/
theorem syntax_claim_counterexample :
    claimShape eDot = true ∧
    (verify_email envW cache0 0 eDot).1.status = Status.invalidSyntax := by
  decide

/-- C8 (amended): any address whose normalisation is outside the
language of `EMAIL_REGEX` — in particular every address lacking an at
sign, containing whitespace or an at sign inside a part, or whose
domain has no dot with nonempty runs on both sides — is classified
InvalidSyntax by a computation that never consults the DNS or SMTP
oracles (the environment is irrelevant to the whole result); any
address whose normalisation is inside that language passes the syntax
stage. -/
theorem syntax_stage (env env2 : Env) (cache : Cache) (now : Int)
    (s : List Char)
    (hfresh : cacheFresh cache now (pyNormalize s) = false) :
    (¬ regexLang (pyNormalize s) →
      (verify_email env cache now s).1.status = Status.invalidSyntax ∧
      verify_email env cache now s = verify_email env2 cache now s) ∧
    (regexLang (pyNormalize s) →
      (verify_email env cache now s).1.status ≠ Status.invalidSyntax) := by
  have hrun : ∀ e : Env, verify_email e cache now s =
      ({email := pyNormalize s, status := classify e (pyNormalize s)},
       Cache.set cache (pyNormalize s)
         (classify e (pyNormalize s), now)) := by
    intro e
    rcases verify_email_spec e cache now s with ⟨st, ts, hc, hlt, _⟩ | ⟨_, he⟩
    · rw [cacheFresh, hc] at hfresh
      simp [hlt] at hfresh
    · exact he
  constructor
  · intro hnot
    have hm : EMAIL_REGEX_match (pyNormalize s) = false := by
      cases hmm : EMAIL_REGEX_match (pyNormalize s)
      · rfl
      · exact absurd ((EMAIL_REGEX_match_iff _).mp hmm) hnot
    have hcl : ∀ e : Env, classify e (pyNormalize s) = Status.invalidSyntax := by
      intro e
      unfold classify
      rw [hm]
      rfl
    constructor
    · rw [hrun env, hcl]
    · rw [hrun env, hrun env2, hcl, hcl]
  · intro hlang
    have hm := (EMAIL_REGEX_match_iff _).mpr hlang
    rw [hrun env]
    show classify env (pyNormalize s) ≠ _
    unfold classify
    rw [hm]
    simp only [Bool.not_true, Bool.false_eq_true, if_false]
    cases hd : env.dns (domainOf (pyNormalize s)) with
    | none => simp
    | some answers =>
      cases hs : answers.mergeSort recordLe with
      | nil => simp only [hs]; simp
      | cons r tl =>
        obtain ⟨p, mx⟩ := r
        simp only [hs]
        cases ho : env.smtp mx (pyNormalize s) with
        | raised detail => simp only [ho]; simp
        | rcpt code q =>
          cases q with
          | none =>
            simp only [ho]
            show smtpClassify code ≠ _
            unfold smtpClassify
            by_cases h1 : code = 250 <;> by_cases h2 : code = 251 <;>
              by_cases h3 : code = 550 <;> simp [h1, h2, h3]
          | some detail => simp only [ho]; simp

/-- C8 witness: the well-shaped address `eOk` passes the syntax stage. -/
theorem syntax_stage_witness :
    (verify_email envW cache0 0 eOk).1.status ≠ Status.invalidSyntax :=
  (syntax_stage envW envQuit cache0 0 eOk (by decide)).2
    ⟨['o', 'k'], ['b'], ['c', 'o', 'm'], by decide, by decide, by decide,
      by decide, by decide, by decide, by decide⟩

/-- The classification reads the environment only at the address's own
domain and at the address itself. -/
theorem classify_congr (env env2 : Env) (k : List Char)
    (hdns : env2.dns (domainOf k) = env.dns (domainOf k))
    (hsmtp : ∀ mx, env2.smtp mx k = env.smtp mx k) :
    classify env2 k = classify env k := by
  unfold classify
  by_cases hm : EMAIL_REGEX_match k
  · simp only [hm, Bool.not_true, Bool.false_eq_true, if_false, hdns]
    cases hd : env.dns (domainOf k) with
    | none => rfl
    | some answers =>
      simp only []
      cases hs : answers.mergeSort recordLe with
      | nil => rfl
      | cons r tl =>
        obtain ⟨p, mx⟩ := r
        simp only [hs, hsmtp mx]
  · simp [hm]

/-- Congruence for one call: the result depends only on the cache entry
of the normalised key, the DNS oracle at its domain and the SMTP oracle
at the normalised address, and output caches agree wherever the input
caches did. -/
theorem verify_email_congr (env env2 : Env) (c c2 : Cache) (now : Int)
    (s : List Char)
    (hdns : env2.dns (domainOf (pyNormalize s)) =
      env.dns (domainOf (pyNormalize s)))
    (hsmtp : ∀ mx, env2.smtp mx (pyNormalize s) = env.smtp mx (pyNormalize s))
    (hck : c2 (pyNormalize s) = c (pyNormalize s)) :
    (verify_email env2 c2 now s).1 = (verify_email env c now s).1 ∧
    ∀ k, c2 k = c k →
      (verify_email env2 c2 now s).2 k = (verify_email env c now s).2 k := by
  have hclass := classify_congr env env2 (pyNormalize s) hdns hsmtp
  rcases verify_email_spec env2 c2 now s with ⟨st, ts, hc, hlt, he⟩ | ⟨hf, he⟩ <;>
    rcases verify_email_spec env c now s with
      ⟨st', ts', hc', hlt', he'⟩ | ⟨hf', he'⟩
  · rw [hck, hc'] at hc
    have h3 := Option.some.inj hc
    rw [Prod.mk.injEq] at h3
    obtain ⟨rfl, rfl⟩ := h3
    exact ⟨by rw [he, he'], fun k hk => by rw [he, he']; exact hk⟩
  · rw [cacheFresh, ← hck, hc] at hf'
    simp [hlt] at hf'
  · rw [cacheFresh, hck, hc'] at hf
    simp [hlt'] at hf
  · refine ⟨by rw [he, he', hclass], fun k hk => ?_⟩
    rw [he, he']
    show Cache.set c2 (pyNormalize s) _ k = Cache.set c (pyNormalize s) _ k
    unfold Cache.set
    by_cases hkk : k = pyNormalize s <;> simp [hkk, hk, hclass]

/-- Isolation of one address in a batch run: if two runs differ only in
the SMTP behaviour towards the single normalised address `k0` and in
the cache entry of `k0`, then every completed task whose address is not
`k0` records the same result in both runs, and the final caches agree
off `k0`. -/
theorem runSched_isolated (env env2 : Env) (times : Nat → Int)
    (k0 : List Char)
    (hdns : ∀ d, env2.dns d = env.dns d)
    (hsmtp : ∀ mx e, e ≠ k0 → env2.smtp mx e = env.smtp mx e) :
    ∀ (sched : List (Nat × List Char)) (c c2 : Cache),
      (∀ k, k ≠ k0 → c2 k = c k) →
      (∀ k, k ≠ k0 → (runSched env2 times c2 sched).1 k =
        (runSched env times c sched).1 k) ∧
      (∀ (j i : Nat) (e : List Char), sched[j]? = some (i, e) →
        pyNormalize e ≠ k0 →
        (runSched env2 times c2 sched).2[j]? =
          (runSched env times c sched).2[j]?) := by
  intro sched
  induction sched with
  | nil =>
    intro c c2 hc
    refine ⟨fun k hk => hc k hk, ?_⟩
    intro j i e hj _
    simp at hj
  | cons p rest ih =>
    obtain ⟨i0, e0⟩ := p
    intro c c2 hc
    by_cases hk0 : pyNormalize e0 = k0
    · have hstep : ∀ k, k ≠ k0 →
          (verify_email env2 c2 (times i0) e0).2 k =
            (verify_email env c (times i0) e0).2 k := by
        intro k hk
        rw [verify_email_frame env2 c2 (times i0) e0 k
            (fun h => hk (h.trans hk0)),
          verify_email_frame env c (times i0) e0 k
            (fun h => hk (h.trans hk0))]
        exact hc k hk
      obtain ⟨ih1, ih2⟩ := ih (verify_email env c (times i0) e0).2
        (verify_email env2 c2 (times i0) e0).2 hstep
      refine ⟨fun k hk => by simpa [runSched] using ih1 k hk, ?_⟩
      intro j i e hj hke
      cases j with
      | zero =>
        simp only [List.getElem?_cons_zero, Option.some.injEq,
          Prod.mk.injEq] at hj
        obtain ⟨_, rfl⟩ := hj
        exact absurd hk0 hke
      | succ n =>
        simp only [List.getElem?_cons_succ] at hj
        simpa [runSched] using ih2 n i e hj hke
    · have hcong := verify_email_congr env env2 c c2 (times i0) e0
        (hdns _) (fun mx => hsmtp mx _ hk0) (hc _ hk0)
      have hstep : ∀ k, k ≠ k0 →
          (verify_email env2 c2 (times i0) e0).2 k =
            (verify_email env c (times i0) e0).2 k :=
        fun k hk => hcong.2 k (hc k hk)
      obtain ⟨ih1, ih2⟩ := ih (verify_email env c (times i0) e0).2
        (verify_email env2 c2 (times i0) e0).2 hstep
      refine ⟨fun k hk => by simpa [runSched] using ih1 k hk, ?_⟩
      intro j i e hj hke
      cases j with
      | zero => simp [runSched, hcong.1]
      | succ n =>
        simp only [List.getElem?_cons_succ] at hj
        simpa [runSched] using ih2 n i e hj hke

/-- C9: every call returns a classified VerificationResult for the
normalised address — no exception escapes, every DNS or SMTP fault
being a status value by construction of the oracles — and in a batch,
making one address `k0` fail in any way at the SMTP stage (together
with whatever cache entry that failure leaves for `k0`) changes no
recorded result of any task for a different address. -/
theorem batch_isolation (env env2 : Env) (times : Nat → Int)
    (cache cache2 : Cache) (sched : List (Nat × List Char))
    (k0 : List Char)
    (hdns : ∀ d, env2.dns d = env.dns d)
    (hsmtp : ∀ mx e, e ≠ k0 → env2.smtp mx e = env.smtp mx e)
    (hc : ∀ k, k ≠ k0 → cache2 k = cache k) :
    (∀ (c : Cache) (n : Int) (t : List Char), ∃ st : Status,
      (verify_email env c n t).1 = {email := pyNormalize t, status := st}) ∧
    (∀ (j i : Nat) (e : List Char), sched[j]? = some (i, e) →
      pyNormalize e ≠ k0 →
      (runSched env2 times cache2 sched).2[j]? =
        (runSched env times cache sched).2[j]?) := by
  constructor
  · intro c n t
    refine ⟨(verify_email env c n t).1.status, ?_⟩
    rw [← verify_email_email_eq env c n t]
  · exact (runSched_isolated env env2 times k0 hdns hsmtp sched
      cache cache2 hc).2

/-- C9 witness: turning the probe of `eOk` into a connection failure
leaves the recorded result of the other batch task (`eBad`, completing
first) unchanged. -/
theorem batch_isolation_witness :
    (runSched envW2 timesW cache0 schedW).2[0]? =
      (runSched envW timesW cache0 schedW).2[0]? :=
  (batch_isolation envW envW2 timesW cache0 cache0 schedW eOk
    (fun d => rfl) (fun mx e h => by simp [envW2, h]) (fun k h => rfl)).2
    0 1 eBad (by decide) (by decide)

/-- In a completed run over tasks with pairwise distinct indices, the
result recorded for index `i` is the verification of the address
submitted as task `i` (against the shared cache state its task saw). -/
theorem runSched_lookup (env : Env) (times : Nat → Int) :
    ∀ (sched : List (Nat × List Char)) (c : Cache) (i : Nat)
      (e : List Char),
      (sched.map Prod.fst).Nodup → (i, e) ∈ sched →
      ∃ c2 : Cache, ((runSched env times c sched).2).lookup i =
        some (verify_email env c2 (times i) e).1 := by
  intro sched
  induction sched with
  | nil =>
    intro c i e _ hm
    simp at hm
  | cons p rest ih =>
    obtain ⟨j, e0⟩ := p
    intro c i e hnd hm
    simp only [runSched]
    rcases List.mem_cons.mp hm with heq | hmem
    · rw [Prod.mk.injEq] at heq
      obtain ⟨rfl, rfl⟩ := heq
      refine ⟨c, ?_⟩
      rw [List.lookup, beq_self_eq_true]
    · have hne : i ≠ j := by
        intro h
        rw [List.map_cons, List.nodup_cons] at hnd
        have h3 : i ∈ rest.map Prod.fst :=
          List.mem_map_of_mem Prod.fst hmem
        rw [h] at h3
        exact hnd.1 h3
      have hnd2 : (rest.map Prod.fst).Nodup := by
        rw [List.map_cons, List.nodup_cons] at hnd
        exact hnd.2
      obtain ⟨c2, hc2⟩ := ih (verify_email env c (times j) e0).2 i e
        hnd2 hmem
      refine ⟨c2, ?_⟩
      rw [List.lookup, beq_eq_false_iff_ne.mpr hne]
      exact hc2

/-- A filterMap whose function succeeds on every element preserves
length. -/
theorem filterMap_length_all_some {α β : Type} (f : α → Option β) :
    ∀ l : List α, (∀ a ∈ l, (f a).isSome) →
      (l.filterMap f).length = l.length := by
  intro l
  induction l with
  | nil => intro _; rfl
  | cons x t ih =>
    intro h
    rw [List.filterMap_cons]
    cases hf : f x with
    | none => exact absurd (h x (List.mem_cons_self _ _)) (by simp [hf])
    | some b =>
      simp only [List.length_cons]
      rw [ih (fun a ha => h a (List.mem_cons_of_mem _ ha))]

/-- A filterMap whose function succeeds on every element acts
positionally. -/
theorem filterMap_getElem_all_some {α β : Type} (f : α → Option β) :
    ∀ (l : List α) (i : Nat) (h : i < l.length),
      (∀ a ∈ l, (f a).isSome) →
      (l.filterMap f)[i]? = f (l.get ⟨i, h⟩) := by
  intro l
  induction l with
  | nil => intro i h _; simp at h
  | cons x t ih =>
    intro i h hall
    rw [List.filterMap_cons]
    cases hf : f x with
    | none => exact absurd (hall x (List.mem_cons_self _ _)) (by simp [hf])
    | some b =>
      cases i with
      | zero => simp [hf]
      | succ n =>
        rw [List.getElem?_cons_succ]
        exact ih n (Nat.lt_of_succ_lt_succ h)
          (fun a ha => hall a (List.mem_cons_of_mem _ ha))

/-- Each position of a list appears, with its element, in the
enumeration starting at `n`. -/
theorem enumFrom_get_mem {α : Type} :
    ∀ (l : List α) (n i : Nat) (h : i < l.length),
      (n + i, l.get ⟨i, h⟩) ∈ l.enumFrom n := by
  intro l
  induction l with
  | nil => intro n i h; simp at h
  | cons x t ih =>
    intro n i h
    cases i with
    | zero => simp [List.enumFrom]
    | succ m =>
      have h2 := ih (n + 1) m (Nat.lt_of_succ_lt_succ h)
      refine List.mem_cons_of_mem _ ?_
      have heq : n + (m + 1) = (n + 1) + m := by omega
      rw [heq]
      exact h2

/-- Each position of a list appears, with its element, in its
enumeration. -/
theorem enum_get_mem {α : Type} (l : List α) (i : Nat)
    (h : i < l.length) : (i, l.get ⟨i, h⟩) ∈ l.enum := by
  have h2 := enumFrom_get_mem l 0 i h
  rw [Nat.zero_add] at h2
  exact h2

/-- C4: for every completion order of the pool's tasks — any permutation
`sched` of the indexed input list — `verify_bulk` returns one result per
input address, in input order: the i-th output is the verification
result of the i-th input address (computed against the shared cache
state its task observed). -/
theorem bulk_order_preserved (env : Env) (times : Nat → Int)
    (cache : Cache) (emails : List (List Char))
    (sched : List (Nat × List Char)) (hperm : sched.Perm emails.enum) :
    (verify_bulk env times cache emails sched).length = emails.length ∧
    ∀ (i : Nat) (hi : i < emails.length), ∃ c2 : Cache,
      (verify_bulk env times cache emails sched)[i]? =
        some (verify_email env c2 (times i) (emails.get ⟨i, hi⟩)).1 := by
  have hnd : (sched.map Prod.fst).Nodup := by
    have h1 : (sched.map Prod.fst).Perm (emails.enum.map Prod.fst) :=
      hperm.map _
    rw [List.enum_map_fst] at h1
    exact (h1.nodup_iff).mpr (List.nodup_range _)
  have hlook : ∀ (i : Nat) (hi : i < emails.length),
      ∃ c2 : Cache, ((runSched env times cache sched).2).lookup i =
        some (verify_email env c2 (times i) (emails.get ⟨i, hi⟩)).1 := by
    intro i hi
    have hmem : (i, emails.get ⟨i, hi⟩) ∈ sched :=
      hperm.symm.subset (enum_get_mem emails i hi)
    exact runSched_lookup env times sched cache i _ hnd hmem
  have hsome : ∀ a ∈ List.range emails.length,
      (((runSched env times cache sched).2).lookup a).isSome := by
    intro a ha
    obtain ⟨c2, hc2⟩ := hlook a (List.mem_range.mp ha)
    simp [hc2]
  constructor
  · rw [verify_bulk, filterMap_length_all_some _ _ hsome,
      List.length_range]
  · intro i hi
    obtain ⟨c2, hc2⟩ := hlook i hi
    refine ⟨c2, ?_⟩
    rw [verify_bulk, filterMap_getElem_all_some _ _ i
      (by simpa using hi) hsome, List.get_range]
    exact hc2

/-- C4 witness: the two-task batch run with the out-of-order completion
`schedW` has two results, and position 0 holds the verification of the
first input address. -/
theorem bulk_order_preserved_witness :
    (verify_bulk envW timesW cache0 emailsW schedW).length =
      emailsW.length ∧
    ∃ c2 : Cache,
      (verify_bulk envW timesW cache0 emailsW schedW)[0]? =
        some (verify_email envW c2 (timesW 0)
          (emailsW.get ⟨0, by decide⟩)).1 := by
  have h := bulk_order_preserved envW timesW cache0 emailsW schedW
    (by decide)
  exact ⟨h.1, h.2 0 (by decide)⟩
